import Mathlib

/-!
Verification development for the batched webhook fan-out dispatcher of
src/services/webhooks.service.js (service name "webhooks").

The dispatcher's core is pure dataflow over lists once the HTTP transport is
abstracted: we model the transport (axios.post together with the fixed
per-trigger payload, which never influences classification) as an oracle
assigning each round index and each hook an `AxiosResult` (a terminal HTTP
status, or a transport-level error).  All other code is translated directly
from the source.
-/

namespace Webhooks

/-- A registered webhook: Mongo document with an id, a display name and the
URL to call (fields read by the dispatcher: `_id`, `name`, `hookURL`). -/
structure WebHook where
  _id : Nat
  name : String
  hookURL : String
deriving DecidableEq

/-- Result of one `axios.post` call: either the request completed with a
terminal HTTP status (the `.then` path), or it failed at transport level —
connection refused, DNS failure, timeout — (the `.catch` path).  axios also
routes non-2xx statuses through `.catch`; both paths of the source produce
the identical outcome object `{success:false, hookURL, _id, name}` in that
case, so folding terminal statuses into `ok status` is extensionally
faithful. -/
inductive AxiosResult where
  | ok (status : Nat)
  | err
deriving DecidableEq

/-- The outcome object built for one delivery attempt:
`{success, hookURL, _id, name}` (makeRequests, lines 94-113). -/
structure Response where
  success : Bool
  hookURL : String
  _id : Nat
  name : String
deriving DecidableEq

/-- The identity triple `{hookURL, _id, name}` that `makeRequests` reads off
each element it is given; retried elements are previous-round outcome
objects, of which exactly these three fields are consumed. -/
def Response.toHook (r : Response) : WebHook :=
  { _id := r._id, name := r.name, hookURL := r.hookURL }

/-- The per-hook lambda inside `makeRequests` (lines 96-108): post to the
hook's URL; on completion set `success` iff the status is exactly 200; on a
transport error the catch handler returns the same object with
`success:false`.  Total: no failure mode escapes to the caller. -/
def makeRequest (resp : WebHook → AxiosResult) (hook : WebHook) : Response :=
  match resp hook with
  | AxiosResult.ok status =>
      { success := status == 200, hookURL := hook.hookURL, _id := hook._id, name := hook.name }
  | AxiosResult.err =>
      { success := false, hookURL := hook.hookURL, _id := hook._id, name := hook.name }

/-- Return value of `groupResponses` / `makeRequests`:
`{success: Response[], failed: Response[]}`. -/
structure Grouped where
  success : List Response
  failed : List Response
deriving DecidableEq

/-- `groupResponses` (lines 69-83): a forEach over the responses pushing each
one onto `success` or `failed` according to its `success` flag. -/
def groupResponses (responseArray : List Response) : Grouped :=
  responseArray.foldl
    (fun acc response =>
      if response.success then { acc with success := acc.success ++ [response] }
      else { acc with failed := acc.failed ++ [response] })
    { success := [], failed := [] }

/-- `makeRequests` (lines 94-113): one attempt per element of the input
(the `Promise.all` preserves input order), then `groupResponses`. -/
def makeRequests (resp : WebHook → AxiosResult) (webHooksArray : List WebHook) : Grouped :=
  groupResponses (webHooksArray.map (makeRequest resp))

/-- The `while (i < n)` loop of `chunkWebHooks` (lines 48-59), with an
explicit iteration budget `fuel`: each iteration pushes
`slice(i, i + chunkSize)` — i.e. `take chunkSize` of the remainder — and
advances by `chunkSize`.  `none` means the budget was exhausted with input
remaining, i.e. the loop did not terminate within `fuel` iterations. -/
def chunkGo (chunkSize : Nat) : Nat → List α → Option (List (List α))
  | _, [] => some []
  | 0, _ :: _ => none
  | fuel + 1, x :: xs =>
      (chunkGo chunkSize fuel ((x :: xs).drop chunkSize)).map (((x :: xs).take chunkSize) :: ·)

/-- `chunkWebHooks` (lines 48-59).  For `chunkSize ≥ 1` the loop consumes at
least one element per iteration, so a budget of `length` iterations always
suffices and the result is `some` (see `chunkWebHooks_eq_chunksOf`).  For
`chunkSize = 0` the loop never advances (`i += 0`) and no finite budget
suffices (see `chunkGo_zero_stuck`). -/
def chunkWebHooks (webHooksArray : List α) (chunkSize : Nat) : Option (List (List α)) :=
  chunkGo chunkSize webHooksArray.length webHooksArray

/-- Fuel-indexed total form of the chunking loop; agrees with `chunkGo`
whenever the latter returns (`chunkGo_eq_some`). -/
def chunksOfGo (chunkSize : Nat) : Nat → List α → List (List α)
  | _, [] => []
  | 0, _ :: _ => []
  | fuel + 1, x :: xs =>
      (x :: xs.take (chunkSize - 1)) :: chunksOfGo chunkSize fuel (xs.drop (chunkSize - 1))

/-- The value computed by `chunkWebHooks` for a positive chunk size: the
input split into consecutive groups of `chunkSize`, the last group holding
the remainder. -/
def chunksOf (chunkSize : Nat) (l : List α) : List (List α) :=
  chunksOfGo chunkSize l.length l

theorem chunksOfGo_nil (chunkSize fuel : Nat) : chunksOfGo chunkSize fuel ([] : List α) = [] := by
  cases fuel <;> rfl

theorem chunksOf_nil (chunkSize : Nat) : chunksOf chunkSize ([] : List α) = [] := rfl

/-- With a positive size and enough fuel, the fueled loop is insensitive to
the exact budget. -/
theorem chunksOfGo_fuel (n : Nat) :
    ∀ fuel fuel' (l : List α), l.length ≤ fuel → l.length ≤ fuel' →
      chunksOfGo (n + 1) fuel l = chunksOfGo (n + 1) fuel' l := by
  intro fuel
  induction fuel with
  | zero =>
      intro fuel' l hl _
      cases l with
      | nil => simp [chunksOfGo_nil]
      | cons x xs => simp at hl
  | succ fuel ih =>
      intro fuel' l hl hl'
      cases l with
      | nil => simp [chunksOfGo_nil]
      | cons x xs =>
          cases fuel' with
          | zero => simp at hl'
          | succ fuel' =>
              simp only [chunksOfGo, Nat.add_sub_cancel]
              have hlen : (xs.drop n).length = xs.length - n := List.length_drop n xs
              have hx : (x :: xs).length = xs.length + 1 := List.length_cons x xs
              have hd : (xs.drop n).length ≤ fuel := by omega
              have hd' : (xs.drop n).length ≤ fuel' := by omega
              rw [ih fuel' (xs.drop n) hd hd']

/-- One-step unfolding of `chunksOf` for a positive size. -/
theorem chunksOf_cons (n : Nat) (x : α) (xs : List α) :
    chunksOf (n + 1) (x :: xs) = (x :: xs.take n) :: chunksOf (n + 1) (xs.drop n) := by
  show chunksOfGo (n + 1) (xs.length + 1) (x :: xs)
      = (x :: xs.take n) :: chunksOfGo (n + 1) (xs.drop n).length (xs.drop n)
  simp only [chunksOfGo, Nat.add_sub_cancel]
  have hlen : (xs.drop n).length = xs.length - n := List.length_drop n xs
  rw [chunksOfGo_fuel n xs.length (xs.drop n).length (xs.drop n) (by omega) (by omega)]

/-- For a positive chunk size, the loop terminates within `length` iterations
and computes `chunksOfGo`. -/
theorem chunkGo_eq_some (n : Nat) :
    ∀ fuel (l : List α), l.length ≤ fuel →
      chunkGo (n + 1) fuel l = some (chunksOfGo (n + 1) fuel l) := by
  intro fuel
  induction fuel with
  | zero =>
      intro l hl
      cases l with
      | nil => rfl
      | cons x xs => simp at hl
  | succ fuel ih =>
      intro l hl
      cases l with
      | nil => rfl
      | cons x xs =>
          simp only [chunkGo, chunksOfGo, List.take_succ_cons, List.drop_succ_cons,
            Nat.add_sub_cancel]
          rw [ih (xs.drop n) (by have := List.length_drop n xs; simp at hl; omega)]
          rfl

/-- For a positive chunk size, `chunkWebHooks` returns, and its value is
`chunksOf`. -/
theorem chunkWebHooks_eq_chunksOf (l : List α) (B : Nat) (hB : 1 ≤ B) :
    chunkWebHooks l B = some (chunksOf B l) := by
  obtain ⟨n, rfl⟩ : ∃ n, B = n + 1 := ⟨B - 1, by omega⟩
  exact chunkGo_eq_some n l.length l (le_refl _)

/-- With chunk size 0 and a non-empty input, no iteration budget makes the
loop terminate: `i += 0` never advances. -/
theorem chunkGo_zero_stuck (x : α) (xs : List α) :
    ∀ fuel : Nat, chunkGo 0 fuel (x :: xs) = none := by
  intro fuel
  induction fuel with
  | zero => rfl
  | succ fuel ih => simp only [chunkGo, List.drop_zero, ih, Option.map_none']

/-- The chunks concatenate back to the input, in order. -/
theorem chunksOfGo_flatten (n : Nat) :
    ∀ fuel (l : List α), l.length ≤ fuel → (chunksOfGo (n + 1) fuel l).flatten = l := by
  intro fuel
  induction fuel with
  | zero =>
      intro l hl
      cases l with
      | nil => rfl
      | cons x xs => simp at hl
  | succ fuel ih =>
      intro l hl
      cases l with
      | nil => rfl
      | cons x xs =>
          simp only [chunksOfGo, Nat.add_sub_cancel, List.flatten_cons]
          rw [ih (xs.drop n) (by have := List.length_drop n xs; simp at hl; omega)]
          simp [List.take_append_drop]

theorem chunksOf_flatten (B : Nat) (hB : 1 ≤ B) (l : List α) :
    (chunksOf B l).flatten = l := by
  obtain ⟨n, rfl⟩ : ∃ n, B = n + 1 := ⟨B - 1, by omega⟩
  exact chunksOfGo_flatten n l.length l (le_refl _)

/-- Chunking yields `[]` exactly on the empty input. -/
theorem chunksOf_eq_nil_iff (n : Nat) (l : List α) :
    chunksOf (n + 1) l = [] ↔ l = [] := by
  cases l with
  | nil => simp [chunksOf_nil]
  | cons x xs => simp [chunksOf_cons]

/-- Every chunk is non-empty and no longer than the chunk size. -/
theorem chunksOf_length_bounds (n : Nat) (l : List α) :
    ∀ c ∈ chunksOf (n + 1) l, 1 ≤ c.length ∧ c.length ≤ n + 1 := by
  have key : ∀ len (l : List α), l.length ≤ len →
      ∀ c ∈ chunksOf (n + 1) l, 1 ≤ c.length ∧ c.length ≤ n + 1 := by
    intro len
    induction len with
    | zero =>
        intro l hl
        have : l = [] := List.eq_nil_of_length_eq_zero (Nat.le_zero.mp hl)
        simp [this, chunksOf_nil]
    | succ len ih =>
        intro l hl
        cases l with
        | nil => simp [chunksOf_nil]
        | cons x xs =>
            rw [chunksOf_cons]
            intro c hc
            rcases List.mem_cons.mp hc with rfl | hc
            · refine ⟨by simp, ?_⟩
              have := List.length_take_le n xs
              simp only [List.length_cons]
              omega
            · refine ih (xs.drop n) ?_ c hc
              have := List.length_drop n xs
              simp only [List.length_cons] at hl
              omega
  exact key l.length l (le_refl _)

/-- All chunks except possibly the last have length exactly the chunk
size. -/
theorem chunksOf_dropLast_length (n : Nat) (l : List α) :
    ∀ c ∈ (chunksOf (n + 1) l).dropLast, c.length = n + 1 := by
  have key : ∀ len (l : List α), l.length ≤ len →
      ∀ c ∈ (chunksOf (n + 1) l).dropLast, c.length = n + 1 := by
    intro len
    induction len with
    | zero =>
        intro l hl
        have : l = [] := List.eq_nil_of_length_eq_zero (Nat.le_zero.mp hl)
        simp [this, chunksOf_nil]
    | succ len ih =>
        intro l hl
        cases l with
        | nil => simp [chunksOf_nil]
        | cons x xs =>
            rw [chunksOf_cons]
            intro c hc
            rcases eq_or_ne (xs.drop n) [] with hnil | hne
            · rw [hnil, chunksOf_nil] at hc
              simp at hc
            · have hrest : chunksOf (n + 1) (xs.drop n) ≠ [] := by
                simpa [chunksOf_eq_nil_iff] using hne
              rw [List.dropLast_cons_of_ne_nil hrest] at hc
              rcases List.mem_cons.mp hc with rfl | hc
              · have hgt : n < xs.length := by
                  rcases Nat.lt_or_ge n xs.length with h | h
                  · exact h
                  · exact absurd (List.drop_eq_nil_of_le h) hne
                simp [List.length_take, Nat.min_eq_left (Nat.le_of_lt hgt)]
              · refine ih (xs.drop n) ?_ c hc
                have := List.length_drop n xs
                simp only [List.length_cons] at hl
                omega
  exact key l.length l (le_refl _)

/-- Any element of any chunk is an element of the input. -/
theorem mem_of_mem_chunksOf (B : Nat) (hB : 1 ≤ B) (l : List α) (c : List α)
    (hc : c ∈ chunksOf B l) (x : α) (hx : x ∈ c) : x ∈ l := by
  rw [← chunksOf_flatten B hB l]
  exact List.mem_flatten.mpr ⟨c, hc, hx⟩

/-- The accumulating forEach of `groupResponses`, from an arbitrary starting
accumulator. -/
theorem groupResponses_foldl (rs : List Response) :
    ∀ s0 f0 : List Response,
      rs.foldl
        (fun (acc : Grouped) response =>
          if response.success then { acc with success := acc.success ++ [response] }
          else { acc with failed := acc.failed ++ [response] })
        { success := s0, failed := f0 }
      = ({ success := s0 ++ rs.filter (fun r => r.success),
           failed := f0 ++ rs.filter (fun r => !r.success) } : Grouped) := by
  induction rs with
  | nil => simp
  | cons r rs ih =>
      intro s0 f0
      by_cases hr : r.success = true
      · simp [hr, ih]
      · simp only [Bool.not_eq_true] at hr
        simp [hr, ih]

/-- `groupResponses` is the stable partition of its input by the `success`
flag. -/
theorem groupResponses_eq (rs : List Response) :
    groupResponses rs
      = { success := rs.filter (fun r => r.success),
          failed := rs.filter (fun r => !r.success) } := by
  simpa using groupResponses_foldl rs [] []

theorem makeRequests_eq (resp : WebHook → AxiosResult) (hooks : List WebHook) :
    makeRequests resp hooks
      = { success := (hooks.map (makeRequest resp)).filter (fun r => r.success),
          failed := (hooks.map (makeRequest resp)).filter (fun r => !r.success) } :=
  groupResponses_eq _

/-- The attempt outcome carries exactly the identity of the attempted
hook. -/
theorem toHook_makeRequest (resp : WebHook → AxiosResult) (h : WebHook) :
    (makeRequest resp h).toHook = h := by
  cases hr : resp h <;> simp [makeRequest, hr, Response.toHook]

/-- A partition's two sides together have the length of the input. -/
theorem length_filter_split (p : Response → Bool) (l : List Response) :
    (l.filter p).length + (l.filter (fun r => !p r)).length = l.length := by
  induction l with
  | nil => rfl
  | cons r l ih =>
      by_cases hr : p r = true
      · simp [hr, ih, Nat.succ_add]
      · simp only [Bool.not_eq_true] at hr
        simp only [List.filter_cons, hr, Bool.not_false, if_true, if_false,
          List.length_cons, List.length]
        simp [ih]
        omega

/-- Classifying chunk by chunk and concatenating is classifying the
concatenation: per-element maps and filters commute with `flatten`. -/
theorem flatten_map_filter {β γ : Type} (g : β → γ) (p : γ → Bool) (cs : List (List β)) :
    (cs.map (fun c => (c.map g).filter p)).flatten = ((cs.flatten).map g).filter p := by
  induction cs with
  | nil => rfl
  | cons c cs ih => simp [ih, List.filter_append]

/-- Mapping a left inverse over a filtered map recovers a plain filter. -/
theorem map_filter_map_eq_filter {β γ : Type} (f : β → γ) (g : γ → β) (p : γ → Bool)
    (hgf : ∀ b, g (f b) = b) (l : List β) :
    ((l.map f).filter p).map g = l.filter (fun b => p (f b)) := by
  induction l with
  | nil => rfl
  | cons b l ih =>
      by_cases hb : p (f b) = true
      · simp [hb, ih, hgf]
      · simp only [Bool.not_eq_true] at hb
        simp [hb, ih, hgf]

/-- The process-wide settings object (lines 24-29): `BATCH_SIZE : 10`,
`RETRY_COUNT : 3`.  The dispatcher theorems are stated for arbitrary
positive values, matching the spec's treatment of these as configuration;
no validation of either value exists anywhere in the source. -/
def settings_BATCH_SIZE : Nat := 10

/-- See `settings_BATCH_SIZE`. -/
def settings_RETRY_COUNT : Nat := 3

/-- The trigger report object (lines 138-165): the round-0 success bucket
`successRequests`, the dynamically-added `retrySuccess<i>` properties
(modelled as an insertion-ordered key/value list, as JS object properties
are), and the terminal `failed` bucket. -/
structure TriggerReport where
  successRequests : List Response
  retrySuccess : List (Nat × List Response)
  failed : List Response
deriving DecidableEq

/-- JS object property assignment for the dynamic keys: overwrite the value
in place when the key is present, otherwise append the new property. -/
def setRetry (m : List (Nat × List Response)) (k : Nat) (v : List Response) :
    List (Nat × List Response) :=
  if m.any (fun p => p.1 == k) then m.map (fun p => if p.1 == k then (k, v) else p)
  else m ++ [(k, v)]

/-- Property read on the retry-success keys. -/
def lookupKey (m : List (Nat × List Response)) (k : Nat) : Option (List Response) :=
  (m.find? (fun p => p.1 == k)).map (fun p => p.2)

/-- Body of one iteration of the retry loop (lines 152-162): re-chunk the
working failure list, run `makeRequests` over every chunk (each chunk's
elements contribute their identity triple), then the forEach appends each
batch's failures to the fresh working failure list and ASSIGNS each batch's
successes to the `retrySuccess<i>` property — the assignment, unlike the
sibling push, overwrites the property on every batch. -/
def retryStep (resp : WebHook → AxiosResult) (chunkSize i : Nat)
    (failedRequests : List Response) (m : List (Nat × List Response)) :
    List Response × List (Nat × List Response) :=
  let failedChunks := chunksOf chunkSize failedRequests
  let retryResponses := failedChunks.map (fun subset => makeRequests resp (subset.map Response.toHook))
  retryResponses.foldl
    (fun acc batch => (acc.1 ++ batch.failed, setRetry acc.2 i batch.success))
    ([], m)

/-- The retry loop `for (let i = 1; i < RETRY_COUNT; i++)` of
`initateProcessing`, as a recursion on the number of remaining iterations:
`retryRounds net B i rem failed m` runs rounds `i, i+1, …, i+rem-1`. -/
def retryRounds (net : Nat → WebHook → AxiosResult) (chunkSize : Nat) :
    Nat → Nat → List Response → List (Nat × List Response) →
      List Response × List (Nat × List Response)
  | _, 0, failedRequests, m => (failedRequests, m)
  | i, rem + 1, failedRequests, m =>
      let st := retryStep (net i) chunkSize i failedRequests m
      retryRounds net chunkSize (i + 1) rem st.1 st.2

/-- `initateProcessing` (lines 122-166).  Round 0: chunk the full hook list,
run `makeRequests` on every chunk, accumulate all failures and successes;
then the retry loop runs rounds `1 … RETRY_COUNT-1`; finally the remaining
working failure list is stored under `failed`.  `net i` is the transport's
behaviour during round `i`; `BATCH_SIZE`/`RETRY_COUNT` come from
`this.settings`. -/
def initateProcessing (net : Nat → WebHook → AxiosResult)
    (BATCH_SIZE RETRY_COUNT : Nat) (webHooks : List WebHook) : TriggerReport :=
  let chunks := chunksOf BATCH_SIZE webHooks
  let batchResponse := chunks.map (fun subset => makeRequests (net 0) subset)
  let acc := batchResponse.foldl
    (fun acc batch => (acc.1 ++ batch.failed, acc.2 ++ batch.success)) ([], [])
  let st := retryRounds net BATCH_SIZE 1 (RETRY_COUNT - 1) acc.1 []
  { successRequests := acc.2, retrySuccess := st.2, failed := st.1 }

/-- The `trigger` action (lines 266-286): fetch the current hook list from
the adapter (supplied here as `webHooks`), build the `{ipadr, timeStamp}`
payload (absorbed into the transport oracle), and hand both to
`initateProcessing`, returning its report verbatim. -/
def trigger (net : Nat → WebHook → AxiosResult)
    (BATCH_SIZE RETRY_COUNT : Nat) (webHooks : List WebHook) : TriggerReport :=
  initateProcessing net BATCH_SIZE RETRY_COUNT webHooks

/-- The hook list contacted in round `i` of a dispatch: round 0 contacts the
full set; round `i+1` contacts the identity triples of the responses that
failed in round `i`.  The characterization lemmas below show this is exactly
the dataflow of `initateProcessing`. -/
def roundInput (net : Nat → WebHook → AxiosResult) (webHooks : List WebHook) :
    Nat → List WebHook
  | 0 => webHooks
  | i + 1 =>
      (((roundInput net webHooks i).map (makeRequest (net i))).filter
        (fun r => !r.success)).map Response.toHook

/-- The failure outcomes of round `i` — the working failure list after that
round. -/
def roundFailedResp (net : Nat → WebHook → AxiosResult) (webHooks : List WebHook)
    (i : Nat) : List Response :=
  ((roundInput net webHooks i).map (makeRequest (net i))).filter (fun r => !r.success)

/-- The success outcomes of round `i`. -/
def roundSuccResp (net : Nat → WebHook → AxiosResult) (webHooks : List WebHook)
    (i : Nat) : List Response :=
  ((roundInput net webHooks i).map (makeRequest (net i))).filter (fun r => r.success)

/-- The successes of the LAST chunk processed in retry round `k` — the value
the overwriting assignment leaves in `retrySuccess<k>`. -/
def lastChunkSucc (net : Nat → WebHook → AxiosResult) (B : Nat)
    (webHooks : List WebHook) (k : Nat) : List Response :=
  ((((chunksOf B (roundFailedResp net webHooks (k - 1))).getLastD []).map
      Response.toHook).map (makeRequest (net k))).filter (fun r => r.success)

theorem roundInput_succ (net : Nat → WebHook → AxiosResult) (webHooks : List WebHook)
    (i : Nat) :
    roundInput net webHooks (i + 1)
      = (roundInput net webHooks i).filter
          (fun h => !(makeRequest (net i) h).success) := by
  show ((((roundInput net webHooks i).map (makeRequest (net i))).filter
      (fun r => !r.success)).map Response.toHook) = _
  exact map_filter_map_eq_filter (makeRequest (net i)) Response.toHook
    (fun r => !r.success) (toHook_makeRequest (net i)) (roundInput net webHooks i)

theorem roundInput_sublist_succ (net : Nat → WebHook → AxiosResult)
    (webHooks : List WebHook) (i : Nat) :
    (roundInput net webHooks (i + 1)).Sublist (roundInput net webHooks i) := by
  rw [roundInput_succ]
  exact List.filter_sublist _

theorem roundInput_sublist (net : Nat → WebHook → AxiosResult)
    (webHooks : List WebHook) (i j : Nat) (hij : i ≤ j) :
    (roundInput net webHooks j).Sublist (roundInput net webHooks i) := by
  obtain ⟨d, rfl⟩ : ∃ d, j = i + d := ⟨j - i, by omega⟩
  clear hij
  induction d with
  | zero => exact List.Sublist.refl _
  | succ d ih =>
      exact List.Sublist.trans (roundInput_sublist_succ net webHooks (i + d)) ih

theorem roundInput_mem_webHooks (net : Nat → WebHook → AxiosResult)
    (webHooks : List WebHook) (i : Nat) (h : WebHook)
    (hm : h ∈ roundInput net webHooks i) : h ∈ webHooks :=
  (roundInput_sublist net webHooks 0 i (Nat.zero_le i)).mem hm

theorem lookupKey_nil (k : Nat) : lookupKey [] k = none := rfl

/-- Setting a key then reading it gives the value just written. -/
theorem lookupKey_setRetry_self (m : List (Nat × List Response)) (k : Nat)
    (v : List Response) : lookupKey (setRetry m k v) k = some v := by
  by_cases hany : m.any (fun p => p.1 == k) = true
  · rw [lookupKey, setRetry, if_pos hany, List.find?_map]
    have hpred : ((fun p : Nat × List Response => p.1 == k) ∘
        (fun p : Nat × List Response => if p.1 == k then (k, v) else p))
        = (fun p : Nat × List Response => p.1 == k) := by
      funext p
      by_cases hp : p.1 = k <;> simp [hp]
    rw [hpred]
    have hsome : (m.find? (fun p => p.1 == k)).isSome := by
      rw [List.find?_isSome]
      obtain ⟨p0, hp0m, hp0⟩ := List.any_eq_true.mp hany
      exact ⟨p0, hp0m, hp0⟩
    obtain ⟨q, hq⟩ := Option.isSome_iff_exists.mp hsome
    have hqk : (q.1 == k) = true := by
      have := List.find?_some hq
      simpa using this
    have hq1 : q.1 = k := by simpa using hqk
    simp [hq, hq1]
  · rw [lookupKey, setRetry, if_neg hany, List.find?_append]
    have hnone : m.find? (fun p => p.1 == k) = none := by
      rw [List.find?_eq_none]
      intro x hx hxk
      exact hany (List.any_eq_true.mpr ⟨x, hx, hxk⟩)
    simp [hnone]

/-- Setting key `k` leaves every other key unchanged. -/
theorem lookupKey_setRetry_ne (m : List (Nat × List Response)) (k k' : Nat)
    (v : List Response) (hne : k' ≠ k) :
    lookupKey (setRetry m k v) k' = lookupKey m k' := by
  by_cases hany : m.any (fun p => p.1 == k) = true
  · rw [lookupKey, setRetry, if_pos hany, List.find?_map]
    have hpred : ((fun p : Nat × List Response => p.1 == k') ∘
        (fun p : Nat × List Response => if p.1 == k then (k, v) else p))
        = (fun p : Nat × List Response => p.1 == k') := by
      funext p
      by_cases hp : p.1 = k <;> simp [hp]
    rw [hpred]
    cases hfind : m.find? (fun p => p.1 == k') with
    | none => simp [lookupKey, hfind]
    | some q =>
        have hq1 : q.1 = k' := by simpa using List.find?_some hfind
        simp [lookupKey, hfind, hq1, hne]
  · rw [lookupKey, setRetry, if_neg hany, List.find?_append]
    have h2 : List.find? (fun p : Nat × List Response => p.1 == k') [(k, v)] = none := by
      simp [Ne.symm hne]
    rw [h2]
    simp [lookupKey]

/-- Overwriting a key twice is the same as writing it once with the second
value. -/
theorem setRetry_setRetry (m : List (Nat × List Response)) (k : Nat)
    (v v' : List Response) :
    setRetry (setRetry m k v) k v' = setRetry m k v' := by
  by_cases hany : m.any (fun p => p.1 == k) = true
  · have hany' : (setRetry m k v).any (fun p => p.1 == k) = true := by
      rw [setRetry, if_pos hany]
      obtain ⟨p0, hp0m, hp0⟩ := List.any_eq_true.mp hany
      refine List.any_eq_true.mpr ⟨(k, v), List.mem_map.mpr ⟨p0, hp0m, ?_⟩, by simp⟩
      simp [hp0]
    rw [setRetry, if_pos hany']
    rw [setRetry, if_pos hany, setRetry, if_pos hany, List.map_map]
    refine List.map_congr_left ?_
    intro p _
    by_cases hp : p.1 = k <;> simp [hp]
  · have hall : ∀ p ∈ m, (p.1 == k) = false := by
      intro p hp
      by_cases h : (p.1 == k) = true
      · exact absurd (List.any_eq_true.mpr ⟨p, hp, h⟩) hany
      · simpa using h
    have hany' : (setRetry m k v).any (fun p => p.1 == k) = true := by
      rw [setRetry, if_neg hany]
      exact List.any_eq_true.mpr ⟨(k, v), by simp, by simp⟩
    rw [setRetry, if_pos hany']
    rw [setRetry, if_neg hany, setRetry, if_neg hany, List.map_append]
    have hm : m.map (fun p => if p.1 == k then (k, v') else p) = m := by
      have : m.map (fun p => if p.1 == k then (k, v') else p) = m.map id := by
        refine List.map_congr_left ?_
        intro p hp
        simp [hall p hp]
      simpa using this
    rw [hm]
    simp

/-- The forEach of a retry round: the failure pushes concatenate, the bucket
assignment keeps only the LAST batch's successes. -/
theorem retryFold (i : Nat) (batches : List Grouped) :
    ∀ (f0 : List Response) (m0 : List (Nat × List Response)),
      batches.foldl
        (fun acc batch => (acc.1 ++ batch.failed, setRetry acc.2 i batch.success))
        (f0, m0)
      = (f0 ++ (batches.map (fun b => b.failed)).flatten,
         match batches.getLast? with
         | none => m0
         | some b => setRetry m0 i b.success) := by
  induction batches with
  | nil => intro f0 m0; simp
  | cons b bs ih =>
      intro f0 m0
      simp only [List.foldl_cons]
      rw [ih]
      cases bs with
      | nil => simp
      | cons b' bs' =>
          cases hq : (b' :: bs').getLast? with
          | none => simp at hq
          | some q =>
              rw [List.getLast?_cons_cons, hq]
              simp [setRetry_setRetry, List.append_assoc]

/-- The round-0 forEach: both buckets concatenate across batches. -/
theorem round0Fold (batches : List Grouped) :
    ∀ (f0 s0 : List Response),
      batches.foldl
        (fun acc batch => (acc.1 ++ batch.failed, acc.2 ++ batch.success))
        (f0, s0)
      = (f0 ++ (batches.map (fun b => b.failed)).flatten,
         s0 ++ (batches.map (fun b => b.success)).flatten) := by
  induction batches with
  | nil => intro f0 s0; simp
  | cons b bs ih =>
      intro f0 s0
      simp only [List.foldl_cons]
      rw [ih]
      simp [List.append_assoc]

/-- What one retry-loop iteration computes: the new working failure list is
the failure partition of re-attempting every element of the old one, and the
`retrySuccess<i>` property ends up holding the successes of the last chunk
only (or is untouched when there was nothing to retry). -/
theorem retryStep_spec (resp : WebHook → AxiosResult) (B i : Nat) (hB : 1 ≤ B)
    (failed : List Response) (m : List (Nat × List Response)) :
    retryStep resp B i failed m
      = (((failed.map Response.toHook).map (makeRequest resp)).filter (fun r => !r.success),
         if failed = [] then m
         else setRetry m i
           (((((chunksOf B failed).getLastD []).map Response.toHook).map
               (makeRequest resp)).filter (fun r => r.success))) := by
  obtain ⟨n, rfl⟩ : ∃ n, B = n + 1 := ⟨B - 1, by omega⟩
  simp only [retryStep]
  rw [retryFold]
  simp only [Prod.mk.injEq]
  constructor
  · rw [List.nil_append]
    have hmap : ((chunksOf (n + 1) failed).map
        (fun subset => makeRequests resp (subset.map Response.toHook))).map (fun b => b.failed)
        = (chunksOf (n + 1) failed).map
            (fun c => (c.map (fun r => makeRequest resp r.toHook)).filter (fun r => !r.success)) := by
      rw [List.map_map]
      refine List.map_congr_left ?_
      intro c _
      simp [makeRequests_eq, List.map_map]
      rfl
    rw [hmap, flatten_map_filter, chunksOf_flatten (n + 1) (by omega), List.map_map]
    rfl
  · rw [List.getLast?_map]
    rcases eq_or_ne failed [] with rfl | hne
    · simp [chunksOf_nil]
    · have hch : chunksOf (n + 1) failed ≠ [] := by
        simpa [chunksOf_eq_nil_iff] using hne
      cases hgl : (chunksOf (n + 1) failed).getLast? with
      | none => exact absurd (List.getLast?_eq_none_iff.mp hgl) hch
      | some c =>
          have hgld : (chunksOf (n + 1) failed).getLastD [] = c := by
            simp [List.getLastD_eq_getLast?, hgl]
          rw [if_neg hne, hgld]
          simp [makeRequests_eq]

/-- One-step unfolding of the retry loop. -/
theorem retryRounds_succ (net : Nat → WebHook → AxiosResult) (B i rem : Nat)
    (f : List Response) (m : List (Nat × List Response)) :
    retryRounds net B i (rem + 1) f m
      = retryRounds net B (i + 1) rem (retryStep (net i) B i f m).1
          (retryStep (net i) B i f m).2 := rfl

/-- With an empty working failure list, every remaining round is a no-op. -/
theorem retryRounds_nilInput (net : Nat → WebHook → AxiosResult) (B : Nat) :
    ∀ rem i m, retryRounds net B i rem [] m = ([], m) := by
  intro rem
  induction rem with
  | zero => intro i m; rfl
  | succ rem ih =>
      intro i m
      rw [retryRounds_succ]
      have hstep : retryStep (net i) B i [] m = ([], m) := rfl
      rw [hstep]
      exact ih (i + 1) m

/-- For a positive round index, the round's input hooks are the identity
triples of the previous round's failure outcomes. -/
theorem roundInput_eq_failed_map (net : Nat → WebHook → AxiosResult)
    (webHooks : List WebHook) (i : Nat) (hi : 1 ≤ i) :
    roundInput net webHooks i = (roundFailedResp net webHooks (i - 1)).map Response.toHook := by
  obtain ⟨j, rfl⟩ : ∃ j, i = j + 1 := ⟨i - 1, by omega⟩
  simp only [Nat.add_sub_cancel]
  rfl

/-- Re-attempting the previous round's failures and keeping the failures is
the next round's failure list. -/
theorem refail_eq_roundFailedResp (net : Nat → WebHook → AxiosResult)
    (webHooks : List WebHook) (i : Nat) (hi : 1 ≤ i) :
    (((roundFailedResp net webHooks (i - 1)).map Response.toHook).map
        (makeRequest (net i))).filter (fun r => !r.success)
      = roundFailedResp net webHooks i := by
  rw [← roundInput_eq_failed_map net webHooks i hi]
  rfl

/-- The working failure list after running rounds `i … i+rem-1`, starting
from the failure list of round `i-1`, is the failure list of round
`i-1+rem`. -/
theorem retryRounds_failed (net : Nat → WebHook → AxiosResult)
    (webHooks : List WebHook) (B : Nat) (hB : 1 ≤ B) :
    ∀ rem i m, 1 ≤ i →
      (retryRounds net B i rem (roundFailedResp net webHooks (i - 1)) m).1
        = roundFailedResp net webHooks (i - 1 + rem) := by
  intro rem
  induction rem with
  | zero => intro i m hi; rfl
  | succ rem ih =>
      intro i m hi
      rw [retryRounds_succ,
        retryStep_spec (net i) B i hB (roundFailedResp net webHooks (i - 1)) m]
      simp only
      rw [refail_eq_roundFailedResp net webHooks i hi]
      have h1 : roundFailedResp net webHooks i
          = roundFailedResp net webHooks ((i + 1) - 1) := by
        simp
      rw [h1, ih (i + 1) _ (by omega)]
      have h2 : (i + 1) - 1 + rem = i - 1 + (rem + 1) := by omega
      rw [h2]

/-- The retry map after running rounds `i … i+rem-1` from the failure list
of round `i-1`: key `k` is bound to the last-chunk successes of round `k`
exactly when round `k` was among those rounds and had a non-empty input;
every other key reads as it did before. -/
theorem retryRounds_lookup (net : Nat → WebHook → AxiosResult)
    (webHooks : List WebHook) (B : Nat) (hB : 1 ≤ B) :
    ∀ rem i m k, 1 ≤ i →
      lookupKey ((retryRounds net B i rem (roundFailedResp net webHooks (i - 1)) m).2) k
        = if i ≤ k ∧ k < i + rem ∧ roundFailedResp net webHooks (k - 1) ≠ []
          then some (lastChunkSucc net B webHooks k)
          else lookupKey m k := by
  intro rem
  induction rem with
  | zero =>
      intro i m k hi
      rw [if_neg]
      · rfl
      · rintro ⟨h1, h2, _⟩
        omega
  | succ rem ih =>
      intro i m k hi
      rw [retryRounds_succ,
        retryStep_spec (net i) B i hB (roundFailedResp net webHooks (i - 1)) m]
      simp only
      rw [refail_eq_roundFailedResp net webHooks i hi]
      have h1 : roundFailedResp net webHooks i
          = roundFailedResp net webHooks ((i + 1) - 1) := by
        simp
      rw [h1, ih (i + 1) _ k (by omega)]
      have hV : (((((chunksOf B (roundFailedResp net webHooks (i - 1))).getLastD []).map
            Response.toHook).map (makeRequest (net i))).filter (fun r => r.success))
          = lastChunkSucc net B webHooks i := rfl
      by_cases ha : i + 1 ≤ k ∧ k < i + 1 + rem ∧ roundFailedResp net webHooks (k - 1) ≠ []
      · rw [if_pos ha, if_pos ⟨by omega, by omega, ha.2.2⟩]
      · rw [if_neg ha]
        by_cases hk : k = i
        · subst hk
          by_cases hfr : roundFailedResp net webHooks (k - 1) = []
          · rw [if_pos hfr, if_neg]
            rintro ⟨_, _, hc⟩
            exact hc hfr
          · rw [if_neg hfr, if_pos ⟨le_refl k, by omega, hfr⟩, hV,
              lookupKey_setRetry_self]
        · have hmk : lookupKey
              (if roundFailedResp net webHooks (i - 1) = [] then m
               else setRetry m i (((((chunksOf B (roundFailedResp net webHooks (i - 1))).getLastD
                   []).map Response.toHook).map (makeRequest (net i))).filter
                   (fun r => r.success))) k = lookupKey m k := by
            by_cases hfr : roundFailedResp net webHooks (i - 1) = []
            · rw [if_pos hfr]
            · rw [if_neg hfr]
              exact lookupKey_setRetry_ne m i k _ hk
          rw [hmk, if_neg]
          rintro ⟨hik, hkr, hfr⟩
          exact ha ⟨by omega, by omega, hfr⟩

/-- Round 0 of `initateProcessing` computes the stable partition of the full
hook list's outcomes; the retry loop then starts from its failure side. -/
theorem initate_spec (net : Nat → WebHook → AxiosResult) (B R : Nat)
    (webHooks : List WebHook) (hB : 1 ≤ B) :
    initateProcessing net B R webHooks
      = { successRequests := roundSuccResp net webHooks 0,
          retrySuccess :=
            (retryRounds net B 1 (R - 1) (roundFailedResp net webHooks 0) []).2,
          failed :=
            (retryRounds net B 1 (R - 1) (roundFailedResp net webHooks 0) []).1 } := by
  simp only [initateProcessing]
  rw [round0Fold]
  have hfail : ((chunksOf B webHooks).map (fun subset => makeRequests (net 0) subset)).map
        (fun b => b.failed)
      = (chunksOf B webHooks).map
          (fun c => (c.map (makeRequest (net 0))).filter (fun r => !r.success)) := by
    rw [List.map_map]
    refine List.map_congr_left ?_
    intro c _
    simp [makeRequests_eq]
  have hsucc : ((chunksOf B webHooks).map (fun subset => makeRequests (net 0) subset)).map
        (fun b => b.success)
      = (chunksOf B webHooks).map
          (fun c => (c.map (makeRequest (net 0))).filter (fun r => r.success)) := by
    rw [List.map_map]
    refine List.map_congr_left ?_
    intro c _
    simp [makeRequests_eq]
  rw [hfail, hsucc, flatten_map_filter, flatten_map_filter, chunksOf_flatten B hB]
  rfl

theorem initate_successRequests (net : Nat → WebHook → AxiosResult) (B R : Nat)
    (webHooks : List WebHook) (hB : 1 ≤ B) :
    (initateProcessing net B R webHooks).successRequests = roundSuccResp net webHooks 0 := by
  rw [initate_spec net B R webHooks hB]

/-- The `failed` bucket of the report is the failure list of the last round
executed. -/
theorem initate_failed (net : Nat → WebHook → AxiosResult) (B R : Nat)
    (webHooks : List WebHook) (hB : 1 ≤ B) :
    (initateProcessing net B R webHooks).failed = roundFailedResp net webHooks (R - 1) := by
  rw [initate_spec net B R webHooks hB]
  have h0 : roundFailedResp net webHooks 0 = roundFailedResp net webHooks (1 - 1) := rfl
  rw [h0, retryRounds_failed net webHooks B hB (R - 1) 1 [] (le_refl 1)]
  simp

/-- Which `retrySuccess<k>` properties exist on the report, and their
values. -/
theorem initate_lookup (net : Nat → WebHook → AxiosResult) (B R : Nat)
    (webHooks : List WebHook) (hB : 1 ≤ B) (k : Nat) :
    lookupKey (initateProcessing net B R webHooks).retrySuccess k
      = if 1 ≤ k ∧ k < 1 + (R - 1) ∧ roundFailedResp net webHooks (k - 1) ≠ []
        then some (lastChunkSucc net B webHooks k)
        else none := by
  rw [initate_spec net B R webHooks hB]
  have h0 : roundFailedResp net webHooks 0 = roundFailedResp net webHooks (1 - 1) := rfl
  rw [h0, retryRounds_lookup net webHooks B hB (R - 1) 1 [] k (le_refl 1)]
  rw [lookupKey_nil]

/-- Identity fields of an attempt outcome. -/
theorem makeRequest_id (resp : WebHook → AxiosResult) (h : WebHook) :
    (makeRequest resp h)._id = h._id := by
  cases hr : resp h <;> simp [makeRequest, hr]

theorem makeRequest_name (resp : WebHook → AxiosResult) (h : WebHook) :
    (makeRequest resp h).name = h.name := by
  cases hr : resp h <;> simp [makeRequest, hr]

theorem makeRequest_hookURL (resp : WebHook → AxiosResult) (h : WebHook) :
    (makeRequest resp h).hookURL = h.hookURL := by
  cases hr : resp h <;> simp [makeRequest, hr]

/-- Success classification: exactly the terminal status 200. -/
theorem makeRequest_success_iff (resp : WebHook → AxiosResult) (h : WebHook) :
    (makeRequest resp h).success = true ↔ resp h = AxiosResult.ok 200 := by
  cases hr : resp h with
  | ok status => simp [makeRequest, hr]
  | err => simp [makeRequest, hr]

/-- Everything the report stores under a `retrySuccess<k>` property succeeded
in round `k`. -/
theorem lastChunkSucc_subset (net : Nat → WebHook → AxiosResult) (B : Nat)
    (webHooks : List WebHook) (hB : 1 ≤ B) (k : Nat) (hk : 1 ≤ k) (r : Response)
    (hr : r ∈ lastChunkSucc net B webHooks k) : r ∈ roundSuccResp net webHooks k := by
  rw [lastChunkSucc, List.mem_filter] at hr
  obtain ⟨hrmem, hrsucc⟩ := hr
  rw [List.mem_map] at hrmem
  obtain ⟨g, hg, rfl⟩ := hrmem
  rw [List.mem_map] at hg
  obtain ⟨x, hx, rfl⟩ := hg
  have hxmem : x ∈ roundFailedResp net webHooks (k - 1) := by
    rcases eq_or_ne (roundFailedResp net webHooks (k - 1)) [] with hnil | hne
    · rw [hnil] at hx
      simp [chunksOf_nil] at hx
    · obtain ⟨n, rfl⟩ : ∃ n, B = n + 1 := ⟨B - 1, by omega⟩
      have hch : chunksOf (n + 1) (roundFailedResp net webHooks (k - 1)) ≠ [] := by
        simpa [chunksOf_eq_nil_iff] using hne
      have hcm : (chunksOf (n + 1) (roundFailedResp net webHooks (k - 1))).getLastD []
          ∈ chunksOf (n + 1) (roundFailedResp net webHooks (k - 1)) := by
        cases hc : chunksOf (n + 1) (roundFailedResp net webHooks (k - 1)) with
        | nil => exact absurd hc hch
        | cons c0 rest =>
            rw [List.getLastD_cons]
            exact List.getLastD_mem_cons rest c0
      exact mem_of_mem_chunksOf (n + 1) (by omega) _ _ hcm x hx
  have hin : x.toHook ∈ roundInput net webHooks k := by
    rw [roundInput_eq_failed_map net webHooks k hk]
    exact List.mem_map.mpr ⟨x, hxmem, rfl⟩
  rw [roundSuccResp, List.mem_filter]
  exact ⟨List.mem_map.mpr ⟨x.toHook, hin, rfl⟩, hrsucc⟩

/-- A hook whose attempt succeeded in round `k` is, id-wise, absent from the
input of every later round (given pairwise distinct ids). -/
theorem succ_id_not_in_later (net : Nat → WebHook → AxiosResult)
    (webHooks : List WebHook) (hN : (webHooks.map (fun h => h._id)).Nodup)
    (k j : Nat) (hkj : k < j) (r : Response) (hr : r ∈ roundSuccResp net webHooks k) :
    ∀ g ∈ roundInput net webHooks j, g._id ≠ r._id := by
  intro g hg heq
  rw [roundSuccResp, List.mem_filter] at hr
  obtain ⟨hrmem, hrsucc⟩ := hr
  rw [List.mem_map] at hrmem
  obtain ⟨h0, hh0, rfl⟩ := hrmem
  have hnotin : h0 ∉ roundInput net webHooks (k + 1) := by
    rw [roundInput_succ]
    intro hmem
    rw [List.mem_filter] at hmem
    rw [hrsucc] at hmem
    simp at hmem
  have hgk1 : g ∈ roundInput net webHooks (k + 1) :=
    (roundInput_sublist net webHooks (k + 1) j (by omega)).mem hg
  have hgW : g ∈ webHooks := roundInput_mem_webHooks net webHooks j g hg
  have hh0W : h0 ∈ webHooks := roundInput_mem_webHooks net webHooks k h0 hh0
  have hid : g._id = h0._id := by
    rw [heq, makeRequest_id]
  have : g = h0 := List.inj_on_of_nodup_map hN hgW hh0W hid
  rw [this] at hgk1
  exact hnotin hgk1

/-- Concrete hook used in the closed instances below. -/
def hookA : WebHook := { _id := 1, name := "a", hookURL := "ua" }

/-- Second concrete hook. -/
def hookB : WebHook := { _id := 2, name := "b", hookURL := "ub" }

/-- A transport for which every round-0 call fails and every later call
returns status 200. -/
def bugNet : Nat → WebHook → AxiosResult :=
  fun i _ => if i == 0 then AxiosResult.err else AxiosResult.ok 200

/-- A transport for which every call returns status 200. -/
def okNet : Nat → WebHook → AxiosResult :=
  fun _ _ => AxiosResult.ok 200

/-- A transport for which every call fails. -/
def errNet : Nat → WebHook → AxiosResult :=
  fun _ _ => AxiosResult.err

/-- A transport behaviour that depends on the hook: id 1 gets status 200,
everything else a transport error. -/
def mixedResp : WebHook → AxiosResult :=
  fun h => if h._id == 1 then AxiosResult.ok 200 else AxiosResult.err

/-- Every endpoint id mentioned in any bucket of a report: the round-0
success bucket, all `retrySuccess<i>` buckets, and `failed`. -/
def reportIds (rep : TriggerReport) : List Nat :=
  rep.successRequests.map (fun r => r._id)
    ++ ((rep.retrySuccess.map (fun p => p.2)).flatten).map (fun r => r._id)
    ++ rep.failed.map (fun r => r._id)

/-- Claim C1: every endpoint of the original dispatch set appears in exactly
one bucket of the returned report, for every batchSize ≥ 1 and
retryCount ≥ 1.  The code violates this: with batchSize 1, retryCount 2 and
two endpoints that fail round 0 and recover in round 1, the retry round has
two chunks and the `retrySuccess1` assignment overwrites the first chunk's
successes with the second's, so endpoint id 1 appears in no bucket at
all. -/
theorem c1_bucket_partition_violated :
    hookA ∈ [hookA, hookB] ∧ hookA._id = 1 ∧
    1 ∉ reportIds (initateProcessing bugNet 1 2 [hookA, hookB]) := by
  decide

/-- Claim C3: each retry round re-chunks the current failure set, records
that round's successes under a round-labeled bucket, and carries failures
forward.  The code violates the recording clause: in the same two-chunk
retry round both endpoints 1 and 2 succeed in round 1, yet the
`retrySuccess1` bucket holds only id 2 (the last chunk), because the forEach
assigns instead of appending. -/
theorem c3_round_successes_not_recorded :
    (roundSuccResp bugNet [hookA, hookB] 1).map (fun r => r._id) = [1, 2] ∧
    (lookupKey (initateProcessing bugNet 1 2 [hookA, hookB]).retrySuccess 1).map
        (fun v => v.map (fun r => r._id)) = some [2] := by
  decide

/-- Claim C4: a delivery attempt never propagates an error: it always
returns an outcome carrying the endpoint's identity, with `success = true`
exactly when the call completed with status 200, and every other terminal
status or transport failure folded into `success = false`.  (`makeRequest`
is total by construction, mirroring the `.then`/`.catch` pair that converts
every failure mode into a value.) -/
theorem c4_attempt_never_throws (resp : WebHook → AxiosResult) (h : WebHook) :
    (makeRequest resp h)._id = h._id ∧
    (makeRequest resp h).name = h.name ∧
    (makeRequest resp h).hookURL = h.hookURL ∧
    ((makeRequest resp h).success = true ↔ resp h = AxiosResult.ok 200) :=
  ⟨makeRequest_id resp h, makeRequest_name resp h, makeRequest_hookURL resp h,
    makeRequest_success_iff resp h⟩

/-- Claim C7: the claim says a non-positive chunk size fails fast with an
invalid-argument condition and that invalid configuration is rejected at
startup.  The code has no validation at all: with chunk size 0 and a
non-empty input the loop body never advances `i`, so no finite iteration
budget completes it — the call loops forever instead of failing fast. -/
theorem c7_chunker_loops_forever_on_zero_size :
    (∀ fuel : Nat, chunkGo 0 fuel [hookA] = none) ∧
    chunkWebHooks [hookA] 0 = none :=
  ⟨fun fuel => chunkGo_zero_stuck hookA [] fuel, chunkGo_zero_stuck hookA [] 1⟩

/-- Claim C9: an empty endpoint list means nothing to dispatch: the trigger
returns a report whose round-0 bucket, retry buckets and failed bucket are
all empty (the retry-bucket list is empty, so no `retrySuccess<i>` property
exists at all). -/
theorem c9_empty_dispatch (net : Nat → WebHook → AxiosResult) (B R : Nat) :
    trigger net B R [] = { successRequests := [], retrySuccess := [], failed := [] } := by
  show initateProcessing net B R [] = _
  have h1 : chunksOf B ([] : List WebHook) = [] := rfl
  simp only [initateProcessing, h1, List.map_nil, List.foldl_nil]
  rw [retryRounds_nilInput net B (R - 1) 1 []]

/-- A response in some round's success list never has the id of a hook that
was attempted-and-failed under the same id: ids are unique, so an id that
succeeded in round `k` cannot belong to a hook whose round-`k` attempt
failed. -/
theorem succ_resp_id_ne (net : Nat → WebHook → AxiosResult) (webHooks : List WebHook)
    (hN : (webHooks.map (fun x => x._id)).Nodup) (h : WebHook) (hmem : h ∈ webHooks)
    (k : Nat) (hkfail : (makeRequest (net k) h).success = false)
    (r : Response) (hr : r ∈ roundSuccResp net webHooks k) : r._id ≠ h._id := by
  intro heq
  rw [roundSuccResp, List.mem_filter] at hr
  obtain ⟨hrm, hrs⟩ := hr
  obtain ⟨h0, hh0, rfl⟩ := List.mem_map.mp hrm
  have hh0W : h0 ∈ webHooks := roundInput_mem_webHooks net webHooks k h0 hh0
  have hid : h0._id = h._id := by
    rw [← makeRequest_id (net k) h0]
    exact heq
  have hhh : h0 = h := List.inj_on_of_nodup_map hN hh0W hmem hid
  rw [hhh, hkfail] at hrs
  cases hrs

/-- Claim C2: an endpoint id appearing in any success bucket of the report
(round 0 or any retry round) never appears in the input set of any later
round — succeeded endpoints are never re-contacted.  (`roundInput net w j`
is the hook list round `j` dispatches, per `initate_failed` and
`roundInput_eq_failed_map`.) -/
theorem c2_no_success_redelivery (net : Nat → WebHook → AxiosResult) (B R : Nat)
    (webHooks : List WebHook) (hB : 1 ≤ B)
    (hN : (webHooks.map (fun x => x._id)).Nodup) :
    (∀ r ∈ (initateProcessing net B R webHooks).successRequests,
       ∀ j, 1 ≤ j → ∀ g ∈ roundInput net webHooks j, g._id ≠ r._id) ∧
    (∀ k v, lookupKey (initateProcessing net B R webHooks).retrySuccess k = some v →
       ∀ r ∈ v, ∀ j, k < j → ∀ g ∈ roundInput net webHooks j, g._id ≠ r._id) := by
  constructor
  · intro r hr j hj g hg
    rw [initate_successRequests net B R webHooks hB] at hr
    exact succ_id_not_in_later net webHooks hN 0 j (by omega) r hr g hg
  · intro k v hv r hr j hkj g hg
    rw [initate_lookup net B R webHooks hB k] at hv
    by_cases hcond : 1 ≤ k ∧ k < 1 + (R - 1) ∧ roundFailedResp net webHooks (k - 1) ≠ []
    · rw [if_pos hcond] at hv
      have hvv : lastChunkSucc net B webHooks k = v := by injection hv
      subst hvv
      have hr' : r ∈ roundSuccResp net webHooks k :=
        lastChunkSucc_subset net B webHooks hB k hcond.1 r hr
      exact succ_id_not_in_later net webHooks hN k j hkj r hr' g hg
    · rw [if_neg hcond] at hv
      cases hv

/-- Closed instance of the claim C2 theorem, hypotheses discharged at
batch size 1, retry count 2 and a single always-succeeding endpoint. -/
theorem c2_no_success_redelivery_witness :
    1 ≤ 1 ∧ ([hookA].map (fun x => x._id)).Nodup ∧
    ((∀ r ∈ (initateProcessing okNet 1 2 [hookA]).successRequests,
        ∀ j, 1 ≤ j → ∀ g ∈ roundInput okNet [hookA] j, g._id ≠ r._id) ∧
     (∀ k v, lookupKey (initateProcessing okNet 1 2 [hookA]).retrySuccess k = some v →
        ∀ r ∈ v, ∀ j, k < j → ∀ g ∈ roundInput okNet [hookA] j, g._id ≠ r._id)) :=
  ⟨by decide, by decide,
    c2_no_success_redelivery okNet 1 2 [hookA] (by decide) (by decide)⟩

/-- Claim C5: for every round input, the batch runner's partition covers the
input (`|success| + |failed| = |input|`), no id lands on both sides, and the
partition is stable (each side is the in-order filter of the outcome
sequence). -/
theorem c5_outcome_coverage (resp : WebHook → AxiosResult) (hooks : List WebHook)
    (hN : (hooks.map (fun h => h._id)).Nodup) :
    (makeRequests resp hooks).success.length + (makeRequests resp hooks).failed.length
        = hooks.length ∧
    (∀ i : Nat, ¬(i ∈ (makeRequests resp hooks).success.map (fun r => r._id) ∧
        i ∈ (makeRequests resp hooks).failed.map (fun r => r._id))) ∧
    (makeRequests resp hooks).success
        = (hooks.map (makeRequest resp)).filter (fun r => r.success) ∧
    (makeRequests resp hooks).failed
        = (hooks.map (makeRequest resp)).filter (fun r => !r.success) := by
  have hS : (makeRequests resp hooks).success
      = (hooks.map (makeRequest resp)).filter (fun r => r.success) := by
    rw [makeRequests_eq]
  have hF : (makeRequests resp hooks).failed
      = (hooks.map (makeRequest resp)).filter (fun r => !r.success) := by
    rw [makeRequests_eq]
  have hresp : ((hooks.map (makeRequest resp)).map (fun r => r._id)).Nodup := by
    rw [List.map_map]
    have hcomp : ((fun r : Response => r._id) ∘ makeRequest resp)
        = (fun h : WebHook => h._id) := by
      funext h
      simp [makeRequest_id]
    rw [hcomp]
    exact hN
  refine ⟨?_, ?_, hS, hF⟩
  · rw [hS, hF, length_filter_split]
    exact List.length_map hooks (makeRequest resp)
  · intro i hi
    obtain ⟨his, hif⟩ := hi
    rw [hS] at his
    rw [hF] at hif
    obtain ⟨r1, hr1, hid1⟩ := List.mem_map.mp his
    obtain ⟨r2, hr2, hid2⟩ := List.mem_map.mp hif
    rw [List.mem_filter] at hr1 hr2
    have h12 : r1 = r2 :=
      List.inj_on_of_nodup_map hresp hr1.1 hr2.1 (by rw [hid1, hid2])
    have hs1 := hr1.2
    have hs2 := hr2.2
    rw [h12] at hs1
    rw [hs1] at hs2
    simp at hs2

/-- Closed instance of the claim C5 theorem at two distinct-id hooks and a
transport that makes one succeed and the other fail. -/
theorem c5_outcome_coverage_witness :
    ([hookA, hookB].map (fun h => h._id)).Nodup ∧
    ((makeRequests mixedResp [hookA, hookB]).success.length
        + (makeRequests mixedResp [hookA, hookB]).failed.length = [hookA, hookB].length ∧
     (∀ i : Nat, ¬(i ∈ (makeRequests mixedResp [hookA, hookB]).success.map (fun r => r._id) ∧
         i ∈ (makeRequests mixedResp [hookA, hookB]).failed.map (fun r => r._id))) ∧
     (makeRequests mixedResp [hookA, hookB]).success
         = ([hookA, hookB].map (makeRequest mixedResp)).filter (fun r => r.success) ∧
     (makeRequests mixedResp [hookA, hookB]).failed
         = ([hookA, hookB].map (makeRequest mixedResp)).filter (fun r => !r.success)) :=
  ⟨by decide, c5_outcome_coverage mixedResp [hookA, hookB] (by decide)⟩

/-- Claim C6: for every input and size ≥ 1 the chunker returns (no
divergence), splitting the input into consecutive full groups with the
remainder (1..size elements) in the final group, order preserved, the
concatenation equal to the input; and chunking `[]` yields `[]`, not
`[[]]`. -/
theorem c6_chunker_correct {α : Type} (l : List α) (B : Nat) (hB : 1 ≤ B) :
    chunkWebHooks l B = some (chunksOf B l) ∧
    (chunksOf B l).flatten = l ∧
    (∀ c ∈ (chunksOf B l).dropLast, c.length = B) ∧
    (∀ c ∈ chunksOf B l, 1 ≤ c.length ∧ c.length ≤ B) ∧
    chunkWebHooks ([] : List α) B = some [] := by
  obtain ⟨n, rfl⟩ : ∃ n, B = n + 1 := ⟨B - 1, by omega⟩
  exact ⟨chunkWebHooks_eq_chunksOf l (n + 1) (by omega),
    chunksOf_flatten (n + 1) (by omega) l,
    chunksOf_dropLast_length n l,
    chunksOf_length_bounds n l,
    chunkWebHooks_eq_chunksOf [] (n + 1) (by omega)⟩

/-- Closed instance of the claim C6 theorem at size 2 on a five-element
list. -/
theorem c6_chunker_correct_witness :
    1 ≤ 2 ∧
    (chunkWebHooks [1, 2, 3, 4, 5] 2 = some (chunksOf 2 [1, 2, 3, 4, 5]) ∧
     (chunksOf 2 [1, 2, 3, 4, 5]).flatten = [1, 2, 3, 4, 5] ∧
     (∀ c ∈ (chunksOf 2 [1, 2, 3, 4, 5]).dropLast, c.length = 2) ∧
     (∀ c ∈ chunksOf 2 [1, 2, 3, 4, 5], 1 ≤ c.length ∧ c.length ≤ 2) ∧
     chunkWebHooks ([] : List Nat) 2 = some []) :=
  ⟨by decide, c6_chunker_correct [1, 2, 3, 4, 5] 2 (by decide)⟩

/-- Claim C8: an endpoint whose attempt fails in round 0 and in every retry
round appears (by id) in `failed`, and in no success bucket. -/
theorem c8_retry_exhaustion (net : Nat → WebHook → AxiosResult) (B R : Nat)
    (webHooks : List WebHook) (h : WebHook) (hB : 1 ≤ B) (hR : 1 ≤ R)
    (hmem : h ∈ webHooks)
    (hfail : ∀ i, i < R → (makeRequest (net i) h).success = false)
    (hN : (webHooks.map (fun x => x._id)).Nodup) :
    (∃ r ∈ (initateProcessing net B R webHooks).failed, r._id = h._id) ∧
    (∀ r ∈ (initateProcessing net B R webHooks).successRequests, r._id ≠ h._id) ∧
    (∀ k v, lookupKey (initateProcessing net B R webHooks).retrySuccess k = some v →
       ∀ r ∈ v, r._id ≠ h._id) := by
  have hin : ∀ i, i < R → h ∈ roundInput net webHooks i := by
    intro i
    induction i with
    | zero => intro _; exact hmem
    | succ i ih =>
        intro hiR
        rw [roundInput_succ]
        refine List.mem_filter.mpr ⟨ih (by omega), ?_⟩
        rw [hfail i (by omega)]
        rfl
  refine ⟨?_, ?_, ?_⟩
  · rw [initate_failed net B R webHooks hB]
    refine ⟨makeRequest (net (R - 1)) h, ?_, makeRequest_id (net (R - 1)) h⟩
    simp only [roundFailedResp]
    rw [List.mem_filter]
    refine ⟨List.mem_map.mpr ⟨h, hin (R - 1) (by omega), rfl⟩, ?_⟩
    rw [hfail (R - 1) (by omega)]
    rfl
  · intro r hr
    rw [initate_successRequests net B R webHooks hB] at hr
    exact succ_resp_id_ne net webHooks hN h hmem 0 (hfail 0 (by omega)) r hr
  · intro k v hv r hr
    rw [initate_lookup net B R webHooks hB k] at hv
    by_cases hcond : 1 ≤ k ∧ k < 1 + (R - 1) ∧ roundFailedResp net webHooks (k - 1) ≠ []
    · rw [if_pos hcond] at hv
      have hvv : lastChunkSucc net B webHooks k = v := by injection hv
      subst hvv
      have hr' : r ∈ roundSuccResp net webHooks k :=
        lastChunkSucc_subset net B webHooks hB k hcond.1 r hr
      exact succ_resp_id_ne net webHooks hN h hmem k (hfail k (by omega)) r hr'
    · rw [if_neg hcond] at hv
      cases hv

/-- Closed instance of the claim C8 theorem: one endpoint, transport always
failing, one round. -/
theorem c8_retry_exhaustion_witness :
    1 ≤ 1 ∧ 1 ≤ 1 ∧ hookA ∈ [hookA] ∧
    (∀ i, i < 1 → (makeRequest (errNet i) hookA).success = false) ∧
    ([hookA].map (fun x => x._id)).Nodup ∧
    ((∃ r ∈ (initateProcessing errNet 1 1 [hookA]).failed, r._id = hookA._id) ∧
     (∀ r ∈ (initateProcessing errNet 1 1 [hookA]).successRequests, r._id ≠ hookA._id) ∧
     (∀ k v, lookupKey (initateProcessing errNet 1 1 [hookA]).retrySuccess k = some v →
        ∀ r ∈ v, r._id ≠ hookA._id)) :=
  ⟨by decide, by decide, by decide, by intro i _; rfl, by decide,
    c8_retry_exhaustion errNet 1 1 [hookA] hookA (by decide) (by decide) (by decide)
      (by intro i _; rfl) (by decide)⟩

/-- Claim C10: a retry round whose working failure set is empty issues no
requests (its chunk list is empty, so `makeRequests` is never invoked) and
leaves no `retrySuccess<i>` property on the report at all — the key is
absent, not bound to `[]`. -/
theorem c10_empty_retry_round_absent (net : Nat → WebHook → AxiosResult) (B R : Nat)
    (webHooks : List WebHook) (i : Nat) (hB : 1 ≤ B) (hi : 1 ≤ i) (hiR : i < R)
    (hempty : roundFailedResp net webHooks (i - 1) = []) :
    chunksOf B (roundFailedResp net webHooks (i - 1)) = [] ∧
    lookupKey (initateProcessing net B R webHooks).retrySuccess i = none ∧
    (∀ p ∈ (initateProcessing net B R webHooks).retrySuccess, p.1 ≠ i) := by
  have hlook : lookupKey (initateProcessing net B R webHooks).retrySuccess i = none := by
    rw [initate_lookup net B R webHooks hB i, if_neg]
    rintro ⟨_, _, hc⟩
    exact hc hempty
  refine ⟨by rw [hempty]; rfl, hlook, ?_⟩
  intro p hp hpi
  have hfind : (initateProcessing net B R webHooks).retrySuccess.find?
      (fun q => q.1 == i) = none := by
    cases hf : (initateProcessing net B R webHooks).retrySuccess.find?
        (fun q => q.1 == i) with
    | none => rfl
    | some q =>
        rw [lookupKey, hf] at hlook
        simp at hlook
  have hnp := List.find?_eq_none.mp hfind p hp
  exact hnp (by simp [hpi])

/-- Closed instance of the claim C10 theorem: one endpoint succeeding in
round 0, so retry round 1 has an empty working set. -/
theorem c10_empty_retry_round_absent_witness :
    1 ≤ 1 ∧ 1 ≤ 1 ∧ 1 < 2 ∧ roundFailedResp okNet [hookA] (1 - 1) = [] ∧
    (chunksOf 1 (roundFailedResp okNet [hookA] (1 - 1)) = [] ∧
     lookupKey (initateProcessing okNet 1 2 [hookA]).retrySuccess 1 = none ∧
     (∀ p ∈ (initateProcessing okNet 1 2 [hookA]).retrySuccess, p.1 ≠ 1)) :=
  ⟨by decide, by decide, by decide, by decide,
    c10_empty_retry_round_absent okNet 1 2 [hookA] 1 (by decide) (by decide) (by decide)
      (by decide)⟩

end Webhooks
